import Mathlib

/-!
Verification of the somnisoft mkfifo utility (src/src/mkfifo.c) against its
natural-language specification.  The C code is shallowly embedded: the
mutable `struct mkfifo_ctx` together with the process umask and the stream
of observable effects (FIFO-creation syscalls and diagnostics) becomes an
explicit state record threaded through pure Lean functions, one per C
function.  The libc mode compiler (`setmode`/`getmode`) is not part of the
repository source; it is modelled from the specification (§4.1).
-/

namespace Mkfifo

/-- `EXIT_SUCCESS` from stdlib.h. -/
def EXIT_SUCCESS : Nat := 0

/-- `EXIT_FAILURE` from stdlib.h. -/
def EXIT_FAILURE : Nat := 1

/-- Owner read permission bit. -/
def S_IRUSR : Nat := 0o400

/-- Owner write permission bit. -/
def S_IWUSR : Nat := 0o200

/-- Group read permission bit. -/
def S_IRGRP : Nat := 0o40

/-- Group write permission bit. -/
def S_IWGRP : Nat := 0o20

/-- Other read permission bit. -/
def S_IROTH : Nat := 0o4

/-- Other write permission bit. -/
def S_IWOTH : Nat := 0o2

/-! ## Mode compiler

Modelled from the spec: the repository calls the libc functions
`setmode`/`getmode`, whose source is not under src/.  Spec §4.1 describes
them: `setmode` parses a pure octal numeral, or a comma-separated list of
clauses `[ugoa]*[+-=][rwx]+`; `getmode` applies the compiled operations
against a base mode (octal numerals are taken literally, ignoring the
base). -/

/-- Edit operator of one symbolic clause: `=` (set), `+` (add), `-` (remove). -/
inductive ModeOp where
  | set : ModeOp
  | add : ModeOp
  | remove : ModeOp
  deriving DecidableEq, Repr

/-- The target classes (owner/group/other) affected by one clause. -/
structure WhoSet where
  u : Bool
  g : Bool
  o : Bool
  deriving DecidableEq, Repr

/-- One compiled edit operation: target classes, operator, rwx bit set. -/
structure ModeClause where
  who : WhoSet
  op : ModeOp
  perms : Nat
  deriving DecidableEq, Repr

/-- Result of compiling a ModeExpression: a literal octal value, or an
ordered list of symbolic edit operations. -/
inductive Compiled where
  | octal : Nat → Compiled
  | symbolic : List ModeClause → Compiled
  deriving DecidableEq, Repr

/-- Is `c` an octal digit? -/
def isOctal (c : Char) : Bool := decide ('0' ≤ c) && decide (c ≤ '7')

/-- Numeric value of a list of octal digits. -/
def octalValue (cs : List Char) : Nat :=
  cs.foldl (fun a c => a * 8 + (c.toNat - Char.toNat '0')) 0

/-- Is `c` a target-class letter (`u`, `g`, `o`, `a`)? -/
def whoChar (c : Char) : Bool := c = 'u' || c = 'g' || c = 'o' || c = 'a'

/-- Is `c` a permission letter (`r`, `w`, `x`)? -/
def permChar (c : Char) : Bool := c = 'r' || c = 'w' || c = 'x'

/-- Is `c` a clause operator (`+`, `-`, `=`)? -/
def opChar (c : Char) : Bool := c = '+' || c = '-' || c = '='

/-- The rwx bit contributed by one permission letter. -/
def permVal (c : Char) : Nat := if c = 'r' then 4 else if c = 'w' then 2 else 1

/-- The operator denoted by one operator character. -/
def opOf (c : Char) : ModeOp :=
  if c = '+' then ModeOp.add else if c = '-' then ModeOp.remove else ModeOp.set

/-- Resolve the target-class letters of a clause: an empty list and the
letter `a` both denote all three classes. -/
def resolveWho (cs : List Char) : WhoSet :=
  if cs = [] then ⟨true, true, true⟩
  else ⟨cs.contains 'u' || cs.contains 'a',
        cs.contains 'g' || cs.contains 'a',
        cs.contains 'o' || cs.contains 'a'⟩

/-- Parse one symbolic clause `[ugoa]*[+-=][rwx]+`. -/
def parseClause (cs : List Char) : Option ModeClause :=
  let whos := cs.takeWhile whoChar
  match cs.dropWhile whoChar with
  | [] => none
  | opc :: perms =>
    if opChar opc && !perms.isEmpty && perms.all permChar then
      some ⟨resolveWho whos, opOf opc,
            perms.foldl (fun a c => a ||| permVal c) 0⟩
    else none

/-- Split a character list on commas. -/
def splitComma : List Char → List (List Char)
  | [] => [[]]
  | c :: rest =>
    let r := splitComma rest
    if c = ',' then [] :: r
    else
      match r with
      | [] => [[c]]
      | h :: t => (c :: h) :: t

/-- Parse every clause of a comma-separated clause list; any malformed
clause fails the whole parse. -/
def parseClauses (parts : List (List Char)) : Option (List ModeClause) :=
  parts.foldr
    (fun p acc =>
      match parseClause p, acc with
      | some c, some l => some (c :: l)
      | _, _ => none)
    (some [])

/-- Modelled from the spec: libc `setmode` (not in src/).  Compiles a
ModeExpression: a nonempty all-octal-digit string is a literal octal
numeral; otherwise the symbolic grammar applies; any malformed or empty
expression is a parse error (`none`). -/
def setmode (s : String) : Option Compiled :=
  let cs := s.toList
  if cs = [] then none
  else if cs.all isOctal then some (Compiled.octal (octalValue cs))
  else
    match parseClauses (splitComma cs) with
    | some l => some (Compiled.symbolic l)
    | none => none

/-- Clear in `m` the bits of `bits`. -/
def clearBits (m bits : Nat) : Nat := m - (m &&& bits)

/-- Apply one clause operator with rwx set `perms` to the 3-bit field of
`m` at `shift` (6 = owner, 3 = group, 0 = other). -/
def applyAt (m : Nat) (shift : Nat) (op : ModeOp) (perms : Nat) : Nat :=
  match op with
  | ModeOp.add => m ||| (perms <<< shift)
  | ModeOp.remove => clearBits m (perms <<< shift)
  | ModeOp.set => clearBits m (7 <<< shift) ||| (perms <<< shift)

/-- Apply one compiled clause to a mode, touching exactly the classes the
clause targets. -/
def applyClause (m : Nat) (cl : ModeClause) : Nat :=
  let m1 := if cl.who.u then applyAt m 6 cl.op cl.perms else m
  let m2 := if cl.who.g then applyAt m1 3 cl.op cl.perms else m1
  if cl.who.o then applyAt m2 0 cl.op cl.perms else m2

/-- Modelled from the spec: libc `getmode` (not in src/).  Applies a
compiled mode to a base permission value: a literal octal numeral is
returned as-is (no base involved); symbolic clauses are applied
left-to-right starting from the base. -/
def getmode (c : Compiled) (base : Nat) : Nat :=
  match c with
  | Compiled.octal v => v
  | Compiled.symbolic cls => cls.foldl applyClause base

/-! ## Driver state and observable effects -/

/-- One observable effect of a run: a `mkfifo` syscall attempt (recording
the path, the mode argument, and the process umask in force at the call),
or a diagnostic line on stderr (`errnoMsg` tells whether the errno text is
appended, i.e. `vwarn` vs `vwarnx`). -/
inductive Ev where
  | attempt : String → Nat → Nat → Ev
  | warn : Bool → String → Ev
  deriving DecidableEq, Repr

/-- The state of one invocation: the two fields of `struct mkfifo_ctx`
(`status_code`, `mode`), the process file-creation mask, and the trace of
observable effects so far, in order. -/
structure St where
  ctx_status : Nat
  ctx_mode : Nat
  umask : Nat
  trace : List Ev
  deriving DecidableEq, Repr

/-- `mkfifo_warn`: print a diagnostic and set the failure status code. -/
def mkfifo_warn (st : St) (errnoMsg : Bool) (msg : String) : St :=
  { st with ctx_status := EXIT_FAILURE,
            trace := st.trace ++ [Ev.warn errnoMsg msg] }

/-- `mkfifo_path`: attempt `mkfifo(path, ctx->mode)`; on failure, warn.
`f` is the oracle saying whether the syscall succeeds at a given path. -/
def mkfifo_path (f : String → Bool) (st : St) (path : String) : St :=
  let st1 : St := { st with
    trace := st.trace ++ [Ev.attempt path st.ctx_mode st.umask] }
  if f path then st1
  else mkfifo_warn st1 true (String.append "cannot create fifo: " path)

/-- `mkfifo_parse_mode`: set the umask to zero, compile the mode string;
on parse failure warn, otherwise store `getmode(compiled, 0666)`. -/
def mkfifo_parse_mode (st : St) (mode_str : String) : St :=
  let st1 : St := { st with umask := 0 }
  match setmode mode_str with
  | none => mkfifo_warn st1 true (String.append "setmode: " mode_str)
  | some c => { st1 with ctx_mode := getmode c 0o666 }

/-- One event yielded by the getopt scan over `"m:"`: a `-m` option with
its argument, or any unrecognized option character (getopt's default
case). -/
inductive OptEvent where
  | m : String → OptEvent
  | other : OptEvent
  deriving DecidableEq, Repr

/-- The initial state of `mkfifo_main`: `memset` zeroes `status_code`, the
mode is set to the 0666 composition, and the process umask is inherited. -/
def initSt (umask0 : Nat) : St :=
  { ctx_status := 0,
    ctx_mode := S_IRUSR ||| S_IWUSR ||| S_IRGRP ||| S_IWGRP |||
                S_IROTH ||| S_IWOTH,
    umask := umask0,
    trace := [] }

/-- The `while(getopt(...))` loop of `mkfifo_main`: `-m` runs the mode
compiler, any other option character sets the failure status; the scan
drains every option event. -/
def optLoop : St → List OptEvent → St
  | st, [] => st
  | st, OptEvent.m arg :: rest => optLoop (mkfifo_parse_mode st arg) rest
  | st, OptEvent.other :: rest =>
      optLoop { st with ctx_status := EXIT_FAILURE } rest

/-- `mkfifo_main`: option scan, then — only when the status code is still
zero — either the missing-operand diagnostic (empty path list) or the
creation loop over every path.  Returns the final state; its `ctx_status`
is the process exit code. -/
def mkfifo_main (f : String → Bool) (umask0 : Nat) (opts : List OptEvent)
    (paths : List String) : St :=
  let st := optLoop (initSt umask0) opts
  if st.ctx_status = 0 then
    if paths = [] then mkfifo_warn st false "missing file..."
    else List.foldl (mkfifo_path f) st paths
  else st

/-- The FIFO-creation attempts of a trace, in order: path, mode argument,
umask in force. -/
def attemptsOf (t : List Ev) : List (String × Nat × Nat) :=
  t.filterMap fun e =>
    match e with
    | Ev.attempt p m um => some (p, m, um)
    | Ev.warn _ _ => none

/-- Modelled from the spec: the OS masks the mode argument of a creation
syscall by the process file-creation mask, so the created node's
permission bits are `mode & ~umask`. -/
def effectivePerms (mode um : Nat) : Nat := mode - (mode &&& um)

/-! ## Basic characterizations of each operation -/

/-- `mkfifo_warn` always sets the failure status code. -/
lemma warn_ctx_status (st : St) (b : Bool) (msg : String) :
    (mkfifo_warn st b msg).ctx_status = EXIT_FAILURE := rfl

/-- One-equation characterization of `mkfifo_path`: the attempt is always
recorded; a failing syscall additionally sets the failure status and
appends the diagnostic. -/
lemma mkfifo_path_eq (f : String → Bool) (st : St) (p : String) :
    mkfifo_path f st p =
      { st with
        ctx_status := if f p then st.ctx_status else EXIT_FAILURE,
        trace := st.trace ++
          (if f p then [Ev.attempt p st.ctx_mode st.umask]
           else [Ev.attempt p st.ctx_mode st.umask,
                 Ev.warn true (String.append "cannot create fifo: " p)]) } := by
  unfold mkfifo_path mkfifo_warn
  cases hf : f p <;> simp [hf]

/-- One-equation characterization of `mkfifo_parse_mode`: the umask is
zeroed unconditionally; a parse failure warns, a parse success stores the
mode compiled against base 0666. -/
lemma mkfifo_parse_mode_eq (st : St) (s : String) :
    mkfifo_parse_mode st s =
      match setmode s with
      | none =>
        { st with
            umask := 0
            ctx_status := EXIT_FAILURE
            trace := st.trace ++
              [Ev.warn true (String.append "setmode: " s)] }
      | some c => { st with umask := 0, ctx_mode := getmode c 0o666 } := by
  unfold mkfifo_parse_mode mkfifo_warn
  cases hs : setmode s <;> simp

/-- `attemptsOf` distributes over trace concatenation. -/
lemma attemptsOf_append (t1 t2 : List Ev) :
    attemptsOf (t1 ++ t2) = attemptsOf t1 ++ attemptsOf t2 := by
  simp [attemptsOf, List.filterMap_append]

/-! ## The creation loop -/

/-- The creation loop never changes the stored mode. -/
lemma foldl_path_ctx_mode (f : String → Bool) (paths : List String) :
    ∀ st : St, (List.foldl (mkfifo_path f) st paths).ctx_mode = st.ctx_mode := by
  induction paths with
  | nil => intro st; rfl
  | cons p rest ih =>
    intro st
    rw [List.foldl_cons, ih, mkfifo_path_eq]

/-- The creation loop never changes the process umask. -/
lemma foldl_path_umask (f : String → Bool) (paths : List String) :
    ∀ st : St, (List.foldl (mkfifo_path f) st paths).umask = st.umask := by
  induction paths with
  | nil => intro st; rfl
  | cons p rest ih =>
    intro st
    rw [List.foldl_cons, ih, mkfifo_path_eq]

/-- Status after the creation loop: unchanged when every syscall succeeds,
failure as soon as any fails. -/
lemma foldl_path_ctx_status (f : String → Bool) (paths : List String) :
    ∀ st : St, (List.foldl (mkfifo_path f) st paths).ctx_status =
      if paths.all f then st.ctx_status else EXIT_FAILURE := by
  induction paths with
  | nil => intro st; simp
  | cons p rest ih =>
    intro st
    rw [List.foldl_cons, ih, mkfifo_path_eq]
    cases hf : f p <;> simp [hf, List.all_cons]

/-- The creation loop records one attempt per path, in order, each with
the entry state's mode and umask — independently of which syscalls
succeed. -/
lemma foldl_path_attempts (f : String → Bool) (paths : List String) :
    ∀ st : St, attemptsOf (List.foldl (mkfifo_path f) st paths).trace =
      attemptsOf st.trace ++ paths.map (fun p => (p, st.ctx_mode, st.umask)) := by
  induction paths with
  | nil => intro st; simp
  | cons p rest ih =>
    intro st
    rw [List.foldl_cons, ih, mkfifo_path_eq]
    cases hf : f p <;>
      simp [hf, attemptsOf_append, attemptsOf, List.append_assoc]

/-- Events already in the trace survive the creation loop. -/
lemma mem_foldl_path_trace (f : String → Bool) (paths : List String) (e : Ev) :
    ∀ st : St, e ∈ st.trace → e ∈ (List.foldl (mkfifo_path f) st paths).trace := by
  induction paths with
  | nil => intro st h; exact h
  | cons p rest ih =>
    intro st h
    rw [List.foldl_cons]
    apply ih
    rw [mkfifo_path_eq]
    exact List.mem_append.mpr (Or.inl h)

/-- A failing path's diagnostic appears in the trace of the creation
loop. -/
lemma warn_mem_foldl_path (f : String → Bool) (p : String) (hf : f p = false) :
    ∀ paths : List String, p ∈ paths → ∀ st : St,
      Ev.warn true (String.append "cannot create fifo: " p) ∈
        (List.foldl (mkfifo_path f) st paths).trace := by
  intro paths
  induction paths with
  | nil => intro hp; cases hp
  | cons q rest ih =>
    intro hp st
    rw [List.foldl_cons]
    rcases List.mem_cons.mp hp with h | h
    · subst h
      apply mem_foldl_path_trace
      rw [mkfifo_path_eq, hf]
      simp
    · exact ih h _

/-! ## The option-scan loop -/

/-- Once the status code is failure, the option scan keeps it there. -/
lemma optLoop_status_failure (opts : List OptEvent) :
    ∀ st : St, st.ctx_status = EXIT_FAILURE →
      (optLoop st opts).ctx_status = EXIT_FAILURE := by
  induction opts with
  | nil => intro st h; exact h
  | cons e rest ih =>
    intro st h
    cases e with
    | m arg =>
      simp only [optLoop]
      apply ih
      rw [mkfifo_parse_mode_eq]
      cases hs : setmode arg
      · rfl
      · exact h
    | other =>
      simp only [optLoop]
      exact ih _ rfl

/-- The option scan performs no FIFO-creation attempt. -/
lemma optLoop_attempts (opts : List OptEvent) :
    ∀ st : St, attemptsOf (optLoop st opts).trace = attemptsOf st.trace := by
  induction opts with
  | nil => intro st; rfl
  | cons e rest ih =>
    intro st
    cases e with
    | m arg =>
      simp only [optLoop]
      rw [ih, mkfifo_parse_mode_eq]
      cases hs : setmode arg
      · simp [attemptsOf_append, attemptsOf]
      · rfl
    | other =>
      simp only [optLoop]
      exact ih _

/-- The status code after the option scan is either the entry status or
failure. -/
lemma optLoop_status_cases (opts : List OptEvent) :
    ∀ st : St, (optLoop st opts).ctx_status = st.ctx_status ∨
      (optLoop st opts).ctx_status = EXIT_FAILURE := by
  induction opts with
  | nil => intro st; exact Or.inl rfl
  | cons e rest ih =>
    intro st
    cases e with
    | m arg =>
      simp only [optLoop]
      rcases ih (mkfifo_parse_mode st arg) with h | h
      · rw [h, mkfifo_parse_mode_eq]
        cases hs : setmode arg
        · exact Or.inr rfl
        · exact Or.inl rfl
      · exact Or.inr h
    | other =>
      simp only [optLoop]
      rcases ih { st with ctx_status := EXIT_FAILURE } with h | h
      · exact Or.inr h
      · exact Or.inr h

/-- Without any `-m` event the option scan changes neither the umask, nor
the stored mode, nor the trace. -/
lemma optLoop_no_m : ∀ opts : List OptEvent, (∀ s, OptEvent.m s ∉ opts) →
    ∀ st : St, (optLoop st opts).umask = st.umask ∧
      (optLoop st opts).ctx_mode = st.ctx_mode ∧
      (optLoop st opts).trace = st.trace := by
  intro opts
  induction opts with
  | nil => intro _ st; exact ⟨rfl, rfl, rfl⟩
  | cons e rest ih =>
    intro h st
    cases e with
    | m arg => exact absurd (List.mem_cons_self _ _) (h arg)
    | other =>
      simp only [optLoop]
      exact ih (fun s hs => h s (List.mem_cons_of_mem _ hs)) _

/-- Any unrecognized option event forces the failure status. -/
lemma optLoop_fail_other : ∀ opts : List OptEvent, OptEvent.other ∈ opts →
    ∀ st : St, (optLoop st opts).ctx_status = EXIT_FAILURE := by
  intro opts
  induction opts with
  | nil => intro h; cases h
  | cons e rest ih =>
    intro h st
    cases e with
    | m arg =>
      simp only [optLoop]
      rcases List.mem_cons.mp h with h1 | h1
      · simp at h1
      · exact ih h1 _
    | other =>
      simp only [optLoop]
      exact optLoop_status_failure rest _ rfl

/-- A `-m` event whose mode string fails to parse forces the failure
status. -/
lemma optLoop_fail_parse (s : String) (hs : setmode s = none) :
    ∀ opts : List OptEvent, OptEvent.m s ∈ opts →
    ∀ st : St, (optLoop st opts).ctx_status = EXIT_FAILURE := by
  intro opts
  induction opts with
  | nil => intro h; cases h
  | cons e rest ih =>
    intro h st
    cases e with
    | m arg =>
      simp only [optLoop]
      rcases List.mem_cons.mp h with h1 | h1
      · injection h1 with h2
        subst h2
        apply optLoop_status_failure
        rw [mkfifo_parse_mode_eq, hs]
      · exact ih h1 _
    | other =>
      simp only [optLoop]
      rcases List.mem_cons.mp h with h1 | h1
      · simp at h1
      · exact ih h1 _

/-! ## Shape of `mkfifo_main` -/

/-- When option parsing left the status at zero and the path list is
nonempty, the driver runs the creation loop. -/
lemma mkfifo_main_eq_foldl (f : String → Bool) (u : Nat) (opts : List OptEvent)
    (paths : List String) (h0 : (optLoop (initSt u) opts).ctx_status = 0)
    (hne : paths ≠ []) :
    mkfifo_main f u opts paths =
      List.foldl (mkfifo_path f) (optLoop (initSt u) opts) paths := by
  simp only [mkfifo_main]
  rw [if_pos h0, if_neg hne]

/-- When option parsing left the status at zero and the path list is
empty, the driver emits the missing-operand diagnostic. -/
lemma mkfifo_main_eq_warn (f : String → Bool) (u : Nat) (opts : List OptEvent)
    (h0 : (optLoop (initSt u) opts).ctx_status = 0) :
    mkfifo_main f u opts [] =
      mkfifo_warn (optLoop (initSt u) opts) false "missing file..." := by
  simp only [mkfifo_main]
  rw [if_pos h0]
  simp

/-- When option parsing already failed, the driver does nothing more. -/
lemma mkfifo_main_eq_opt (f : String → Bool) (u : Nat) (opts : List OptEvent)
    (paths : List String) (h0 : ¬(optLoop (initSt u) opts).ctx_status = 0) :
    mkfifo_main f u opts paths = optLoop (initSt u) opts := by
  simp only [mkfifo_main]
  rw [if_neg h0]

/-- The exit status of the whole driver, as one closed-form equation. -/
lemma mkfifo_main_status (f : String → Bool) (u : Nat) (opts : List OptEvent)
    (paths : List String) :
    (mkfifo_main f u opts paths).ctx_status =
      if (optLoop (initSt u) opts).ctx_status = 0 then
        (if paths = [] then EXIT_FAILURE
         else if paths.all f then EXIT_SUCCESS else EXIT_FAILURE)
      else (optLoop (initSt u) opts).ctx_status := by
  by_cases h0 : (optLoop (initSt u) opts).ctx_status = 0
  · rw [if_pos h0]
    rcases eq_or_ne paths [] with he | he
    · rw [if_pos he]
      subst he
      rw [mkfifo_main_eq_warn f u opts h0, warn_ctx_status]
    · rw [if_neg he, mkfifo_main_eq_foldl f u opts paths h0 he,
          foldl_path_ctx_status, h0]
      rfl
  · rw [if_neg h0, mkfifo_main_eq_opt f u opts paths h0]

/-! ## The claims -/

/-- Claim C1: the process exit code is Failure (1) if and only if at least
one path's FIFO creation failed, or the path list was empty, or an earlier
stage (unrecognized option or mode parsing) failed; otherwise it is
Success (0). -/
theorem C1_exit_code_iff (f : String → Bool) (u : Nat) (opts : List OptEvent)
    (paths : List String) :
    ((mkfifo_main f u opts paths).ctx_status = EXIT_FAILURE ↔
      ((optLoop (initSt u) opts).ctx_status = EXIT_FAILURE ∨ paths = [] ∨
        ∃ p ∈ paths, f p = false)) ∧
    ((mkfifo_main f u opts paths).ctx_status = EXIT_SUCCESS ↔
      ¬((optLoop (initSt u) opts).ctx_status = EXIT_FAILURE ∨ paths = [] ∨
        ∃ p ∈ paths, f p = false)) := by
  have hs := mkfifo_main_status f u opts paths
  by_cases h0 : (optLoop (initSt u) opts).ctx_status = 0
  · rw [if_pos h0] at hs
    rcases eq_or_ne paths [] with he | he
    · rw [if_pos he] at hs
      rw [hs, h0]
      simp [he, EXIT_FAILURE, EXIT_SUCCESS]
    · rw [if_neg he] at hs
      cases hall : paths.all f
      · rw [hall] at hs
        have hex : ∃ p ∈ paths, f p = false := by
          rcases List.all_eq_false.mp hall with ⟨p, hp, hfp⟩
          exact ⟨p, hp, by simpa using hfp⟩
        rw [hs, h0]
        constructor
        · simp [hex, EXIT_FAILURE]
        · simp [hex, EXIT_FAILURE, EXIT_SUCCESS]
      · rw [hall] at hs
        have hnone : ¬∃ p ∈ paths, f p = false := by
          rintro ⟨p, hp, hfp⟩
          rw [List.all_eq_true.mp hall p hp] at hfp
          cases hfp
        rw [hs, h0]
        simp [he, hnone, EXIT_FAILURE, EXIT_SUCCESS]
  · rw [if_neg h0] at hs
    have h1 : (optLoop (initSt u) opts).ctx_status = EXIT_FAILURE := by
      rcases optLoop_status_cases opts (initSt u) with h | h
      · exact absurd h h0
      · exact h
    rw [hs, h1]
    simp [EXIT_FAILURE, EXIT_SUCCESS]

/-- Claim C2, counterexample: with no `-m` option the mode passed to the
FIFO-creation syscall is 0666, not the claimed fixed `rw-rw-r--`
composition (0664, or 0644 reading the claim's parenthetical): shown at
umask 022 on the single path "p". -/
theorem C2_counterexample :
    attemptsOf (mkfifo_main (fun _ => true) 0o022 [] ["p"]).trace =
      [("p", 0o666, 0o022)] ∧
    (0o666 : Nat) ≠ 0o664 ∧ (0o666 : Nat) ≠ 0o644 :=
  ⟨rfl, by decide, by decide⟩

/-- Claim C2 as amended: with no option events at all, the mode passed to
every FIFO-creation attempt is the constant 0666 (rw-rw-rw-), recorded
together with the untouched ambient umask; the effective permissions are
then subject to that umask rather than being a fixed constant. -/
theorem C2_default_mode (f : String → Bool) (u : Nat) (paths : List String) :
    attemptsOf (mkfifo_main f u [] paths).trace =
      paths.map (fun p => (p, 0o666, u)) := by
  rcases eq_or_ne paths [] with he | he
  · subst he
    rfl
  · rw [mkfifo_main_eq_foldl f u [] paths rfl he, foldl_path_attempts]
    rfl

/-- Claim C3: when option parsing succeeded and the path list is nonempty,
a creation attempt is recorded for every path in the order supplied, the
attempt list does not depend on which syscalls fail (no early exit), and
any failing path sets the Failure status and emits its diagnostic. -/
theorem C3_no_early_exit (f g : String → Bool) (u : Nat) (opts : List OptEvent)
    (paths : List String) (hne : paths ≠ [])
    (h0 : (optLoop (initSt u) opts).ctx_status = EXIT_SUCCESS) :
    attemptsOf (mkfifo_main f u opts paths).trace =
      paths.map (fun p =>
        (p, (optLoop (initSt u) opts).ctx_mode,
         (optLoop (initSt u) opts).umask)) ∧
    attemptsOf (mkfifo_main f u opts paths).trace =
      attemptsOf (mkfifo_main g u opts paths).trace ∧
    ∀ p ∈ paths, f p = false →
      (mkfifo_main f u opts paths).ctx_status = EXIT_FAILURE ∧
      Ev.warn true (String.append "cannot create fifo: " p) ∈
        (mkfifo_main f u opts paths).trace := by
  have h0' : (optLoop (initSt u) opts).ctx_status = 0 := h0
  have hmap : ∀ h : String → Bool,
      attemptsOf (mkfifo_main h u opts paths).trace =
        paths.map (fun p =>
          (p, (optLoop (initSt u) opts).ctx_mode,
           (optLoop (initSt u) opts).umask)) := by
    intro h
    rw [mkfifo_main_eq_foldl h u opts paths h0' hne, foldl_path_attempts,
        optLoop_attempts]
    rfl
  refine ⟨hmap f, (hmap f).trans (hmap g).symm, ?_⟩
  intro p hp hfp
  rw [mkfifo_main_eq_foldl f u opts paths h0' hne]
  constructor
  · rw [foldl_path_ctx_status]
    have : paths.all f = false :=
      List.all_eq_false.mpr ⟨p, hp, by simp [hfp]⟩
    rw [this]
    rfl
  · exact warn_mem_foldl_path f p hfp paths hp _

/-- Claim C3, witness: two paths with the second failing — both attempts
are recorded in order with mode 0666 and umask 022, the attempt list
matches the all-success oracle's, and the failure is reported. -/
theorem C3_witness :
    attemptsOf (mkfifo_main (fun p => !(p == "bad")) 0o022 [] ["a", "bad"]).trace =
      ["a", "bad"].map (fun p =>
        (p, (optLoop (initSt 0o022) []).ctx_mode,
         (optLoop (initSt 0o022) []).umask)) ∧
    attemptsOf (mkfifo_main (fun p => !(p == "bad")) 0o022 [] ["a", "bad"]).trace =
      attemptsOf (mkfifo_main (fun _ => true) 0o022 [] ["a", "bad"]).trace ∧
    ∀ p ∈ ["a", "bad"], (fun p => !(p == "bad")) p = false →
      (mkfifo_main (fun p => !(p == "bad")) 0o022 [] ["a", "bad"]).ctx_status =
        EXIT_FAILURE ∧
      Ev.warn true (String.append "cannot create fifo: " p) ∈
        (mkfifo_main (fun p => !(p == "bad")) 0o022 [] ["a", "bad"]).trace :=
  C3_no_early_exit (fun p => !(p == "bad")) (fun _ => true) 0o022 []
    ["a", "bad"] (by decide) rfl

/-- Claim C4: a `-m` whose mode string fails to parse makes the aggregate
status Failure and prevents every FIFO-creation attempt. -/
theorem C4_parse_failure_blocks_creation (f : String → Bool) (u : Nat)
    (opts : List OptEvent) (paths : List String)
    (h : ∃ s, OptEvent.m s ∈ opts ∧ setmode s = none) :
    (mkfifo_main f u opts paths).ctx_status = EXIT_FAILURE ∧
    attemptsOf (mkfifo_main f u opts paths).trace = [] := by
  obtain ⟨s, hmem, hnone⟩ := h
  have hfail : (optLoop (initSt u) opts).ctx_status = EXIT_FAILURE :=
    optLoop_fail_parse s hnone opts hmem _
  have h0 : ¬(optLoop (initSt u) opts).ctx_status = 0 := by
    rw [hfail]
    simp [EXIT_FAILURE]
  rw [mkfifo_main_eq_opt f u opts paths h0]
  exact ⟨hfail, by rw [optLoop_attempts]; rfl⟩

/-- Claim C4, witness: `-m abc` fails to parse, so the exit code is 1 and
the path "q" is never attempted. -/
theorem C4_witness :
    (mkfifo_main (fun _ => true) 0 [OptEvent.m "abc"] ["q"]).ctx_status =
      EXIT_FAILURE ∧
    attemptsOf (mkfifo_main (fun _ => true) 0 [OptEvent.m "abc"] ["q"]).trace =
      [] :=
  C4_parse_failure_blocks_creation (fun _ => true) 0 [OptEvent.m "abc"] ["q"]
    ⟨"abc", List.mem_cons_self _ _, rfl⟩

/-- Claim C5, counterexample: on an empty path list the diagnostic the
code emits is "missing file...", not "missing file operand"; and when an
earlier stage already failed (an unrecognized option), no missing-operand
diagnostic is emitted at all. -/
theorem C5_counterexample :
    (mkfifo_main (fun _ => true) 0 [] []).trace =
      [Ev.warn false "missing file..."] ∧
    Ev.warn false "missing file operand" ∉
      (mkfifo_main (fun _ => true) 0 [] []).trace ∧
    (mkfifo_main (fun _ => true) 0 [OptEvent.other] []).trace = [] :=
  ⟨rfl, by decide, rfl⟩

/-- Claim C5 as amended: on an empty path list with no earlier-stage
failure, the result is Failure, the diagnostic "missing file..." is
reported, and no FIFO creation is attempted. -/
theorem C5_empty_path_list (f : String → Bool) (u : Nat)
    (opts : List OptEvent)
    (h0 : (optLoop (initSt u) opts).ctx_status = EXIT_SUCCESS) :
    (mkfifo_main f u opts []).ctx_status = EXIT_FAILURE ∧
    Ev.warn false "missing file..." ∈ (mkfifo_main f u opts []).trace ∧
    attemptsOf (mkfifo_main f u opts []).trace = [] := by
  have h0' : (optLoop (initSt u) opts).ctx_status = 0 := h0
  rw [mkfifo_main_eq_warn f u opts h0']
  refine ⟨rfl, ?_, ?_⟩
  · simp [mkfifo_warn]
  · show attemptsOf ((optLoop (initSt u) opts).trace ++
      [Ev.warn false "missing file..."]) = []
    rw [attemptsOf_append, optLoop_attempts]
    rfl

/-- Claim C5, witness: no options, no paths — exit code 1, the diagnostic
present, no attempt recorded. -/
theorem C5_witness :
    (mkfifo_main (fun _ => true) 0 [] []).ctx_status = EXIT_FAILURE ∧
    Ev.warn false "missing file..." ∈ (mkfifo_main (fun _ => true) 0 [] []).trace ∧
    attemptsOf (mkfifo_main (fun _ => true) 0 [] []).trace = [] :=
  C5_empty_path_list (fun _ => true) 0 [] rfl

/-- Claim C6: any unrecognized option event forces the Failure exit status
regardless of the path list and mode, and the option scan handles such an
event by continuing over the remaining events rather than aborting. -/
theorem C6_unrecognized_option (f : String → Bool) (u : Nat)
    (opts : List OptEvent) (paths : List String)
    (h : OptEvent.other ∈ opts) :
    (mkfifo_main f u opts paths).ctx_status = EXIT_FAILURE ∧
    ∀ (st : St) (rest : List OptEvent),
      optLoop st (OptEvent.other :: rest) =
        optLoop { st with ctx_status := EXIT_FAILURE } rest := by
  constructor
  · have hfail := optLoop_fail_other opts h (initSt u)
    have h0 : ¬(optLoop (initSt u) opts).ctx_status = 0 := by
      rw [hfail]
      simp [EXIT_FAILURE]
    rw [mkfifo_main_eq_opt f u opts paths h0]
    exact hfail
  · intro st rest
    rfl

/-- Claim C6, witness: an unrecognized option followed by a valid `-m 123`
and a valid path still exits 1, and the scan equation holds at the initial
state. -/
theorem C6_witness :
    (mkfifo_main (fun _ => true) 0 [OptEvent.other, OptEvent.m "123"]
      ["p"]).ctx_status = EXIT_FAILURE ∧
    ∀ (st : St) (rest : List OptEvent),
      optLoop st (OptEvent.other :: rest) =
        optLoop { st with ctx_status := EXIT_FAILURE } rest :=
  C6_unrecognized_option (fun _ => true) 0 [OptEvent.other, OptEvent.m "123"]
    ["p"] (List.mem_cons_self _ _)

/-- Claim C7: a successfully parsed `-m` mode string is compiled against
the base mode 0666, with the process umask forced to zero during mode
resolution; symbolic clauses fold left-to-right over the base, while a
pure octal numeral is taken literally, ignoring any base. -/
theorem C7_mode_compiler (st : St) (s : String) (c : Compiled)
    (h : setmode s = some c) :
    (mkfifo_parse_mode st s).ctx_mode = getmode c 0o666 ∧
    (mkfifo_parse_mode st s).umask = 0 ∧
    (mkfifo_parse_mode st s).ctx_status = st.ctx_status ∧
    (∀ cls, c = Compiled.symbolic cls →
      (mkfifo_parse_mode st s).ctx_mode = cls.foldl applyClause 0o666) ∧
    (∀ v, c = Compiled.octal v →
      (mkfifo_parse_mode st s).ctx_mode = v ∧ ∀ base, getmode c base = v) := by
  rw [mkfifo_parse_mode_eq, h]
  refine ⟨rfl, rfl, rfl, ?_, ?_⟩
  · intro cls hc
    subst hc
    rfl
  · intro v hc
    subst hc
    exact ⟨rfl, fun base => rfl⟩

/-- Claim C7, witness: the octal string "123" compiles to the literal
value 0o123 (= 83), is stored as the mode, and zeroes the umask. -/
theorem C7_witness :
    (mkfifo_parse_mode (initSt 0o022) "123").ctx_mode =
      getmode (Compiled.octal 83) 0o666 ∧
    (mkfifo_parse_mode (initSt 0o022) "123").umask = 0 ∧
    (mkfifo_parse_mode (initSt 0o022) "123").ctx_status =
      (initSt 0o022).ctx_status ∧
    (∀ cls, Compiled.octal 83 = Compiled.symbolic cls →
      (mkfifo_parse_mode (initSt 0o022) "123").ctx_mode =
        cls.foldl applyClause 0o666) ∧
    (∀ v, Compiled.octal 83 = Compiled.octal v →
      (mkfifo_parse_mode (initSt 0o022) "123").ctx_mode = v ∧
      ∀ base, getmode (Compiled.octal 83) base = v) :=
  C7_mode_compiler (initSt 0o022) "123" (Compiled.octal 83) rfl

/-- Claim C8: the status code starts as Success, and every operation of
the utility — warning, creation attempt, mode parsing, the option scan,
and the creation loop — preserves an already-set Failure status; it is
never reset to Success. -/
theorem C8_status_monotone :
    (∀ u : Nat, (initSt u).ctx_status = EXIT_SUCCESS) ∧
    (∀ (st : St) (b : Bool) (msg : String), st.ctx_status = EXIT_FAILURE →
      (mkfifo_warn st b msg).ctx_status = EXIT_FAILURE) ∧
    (∀ (f : String → Bool) (st : St) (p : String),
      st.ctx_status = EXIT_FAILURE →
      (mkfifo_path f st p).ctx_status = EXIT_FAILURE) ∧
    (∀ (st : St) (s : String), st.ctx_status = EXIT_FAILURE →
      (mkfifo_parse_mode st s).ctx_status = EXIT_FAILURE) ∧
    (∀ (st : St) (opts : List OptEvent), st.ctx_status = EXIT_FAILURE →
      (optLoop st opts).ctx_status = EXIT_FAILURE) ∧
    (∀ (f : String → Bool) (st : St) (paths : List String),
      st.ctx_status = EXIT_FAILURE →
      (List.foldl (mkfifo_path f) st paths).ctx_status = EXIT_FAILURE) := by
  refine ⟨fun u => rfl, fun st b msg _ => rfl, ?_, ?_, ?_, ?_⟩
  · intro f st p h
    rw [mkfifo_path_eq]
    cases hf : f p <;> simp [hf, h]
  · intro st s h
    rw [mkfifo_parse_mode_eq]
    cases hs : setmode s
    · rfl
    · exact h
  · intro st opts h
    exact optLoop_status_failure opts st h
  · intro f st paths h
    rw [foldl_path_ctx_status]
    cases hall : paths.all f <;> simp [h]

/-- Claim C8, witness: after a warning has set the failure status, a
successful `-m 123` parse followed by an unrecognized option, and a
successful creation of "p", both leave the status at Failure. -/
theorem C8_witness :
    (optLoop (mkfifo_warn (initSt 0) false "x")
      [OptEvent.m "123", OptEvent.other]).ctx_status = EXIT_FAILURE ∧
    (List.foldl (mkfifo_path (fun _ => true)) (mkfifo_warn (initSt 0) false "x")
      ["p"]).ctx_status = EXIT_FAILURE :=
  ⟨C8_status_monotone.2.2.2.2.1 (mkfifo_warn (initSt 0) false "x")
      [OptEvent.m "123", OptEvent.other] rfl,
   C8_status_monotone.2.2.2.2.2 (fun _ => true)
      (mkfifo_warn (initSt 0) false "x") ["p"] rfl⟩

/-- Claim C9: the umask is zeroed only inside mode parsing; with no `-m`
event the umask is never modified, every creation attempt passes the 0666
default under the ambient umask, and the effective default permissions
depend on that umask (022 gives 0644, 0 gives 0666). -/
theorem C9_umask_only_on_m (f : String → Bool) (u : Nat)
    (opts : List OptEvent) (paths : List String)
    (h : ∀ s, OptEvent.m s ∉ opts) :
    (mkfifo_main f u opts paths).umask = u ∧
    (∀ p m um, (p, m, um) ∈ attemptsOf (mkfifo_main f u opts paths).trace →
      m = 0o666 ∧ um = u) ∧
    (∀ (st : St) (s : String), (mkfifo_parse_mode st s).umask = 0) ∧
    effectivePerms 0o666 0o022 = 0o644 ∧
    effectivePerms 0o666 0 = 0o666 ∧
    effectivePerms 0o666 0o022 ≠ effectivePerms 0o666 0 := by
  obtain ⟨hum, hmode, htr⟩ := optLoop_no_m opts h (initSt u)
  refine ⟨?_, ?_, ?_, by decide, by decide, by decide⟩
  · by_cases h0 : (optLoop (initSt u) opts).ctx_status = 0
    · rcases eq_or_ne paths [] with he | he
      · subst he
        rw [mkfifo_main_eq_warn f u opts h0]
        exact hum
      · rw [mkfifo_main_eq_foldl f u opts paths h0 he, foldl_path_umask]
        exact hum
    · rw [mkfifo_main_eq_opt f u opts paths h0]
      exact hum
  · intro p m um hmem
    by_cases h0 : (optLoop (initSt u) opts).ctx_status = 0
    · rcases eq_or_ne paths [] with he | he
      · subst he
        rw [mkfifo_main_eq_warn f u opts h0] at hmem
        rw [show (mkfifo_warn (optLoop (initSt u) opts) false
              "missing file...").trace =
            (optLoop (initSt u) opts).trace ++
              [Ev.warn false "missing file..."] from rfl,
          attemptsOf_append, optLoop_attempts] at hmem
        simp [attemptsOf, initSt] at hmem
      · rw [mkfifo_main_eq_foldl f u opts paths h0 he, foldl_path_attempts,
            optLoop_attempts, hmode, hum] at hmem
        have : attemptsOf (initSt u).trace = [] := rfl
        rw [this, List.nil_append] at hmem
        rcases List.mem_map.mp hmem with ⟨q, hq, heq⟩
        have h666 : (initSt u).ctx_mode = 0o666 := rfl
        rw [h666] at heq
        simp only [Prod.mk.injEq] at heq
        obtain ⟨h1, h2, h3⟩ := heq
        exact ⟨h2.symm, h3.symm⟩
    · rw [mkfifo_main_eq_opt f u opts paths h0, optLoop_attempts] at hmem
      simp [attemptsOf, initSt] at hmem
  · intro st s
    rw [mkfifo_parse_mode_eq]
    cases hs : setmode s
    · rfl
    · rfl

/-- Claim C9, witness: one unrecognized option and the path "p" at umask
022 — the full conjunction instantiated. -/
theorem C9_witness :
    (mkfifo_main (fun _ => true) 0o022 [OptEvent.other] ["p"]).umask = 0o022 ∧
    (∀ p m um,
      (p, m, um) ∈
        attemptsOf (mkfifo_main (fun _ => true) 0o022 [OptEvent.other]
          ["p"]).trace →
      m = 0o666 ∧ um = 0o022) ∧
    (∀ (st : St) (s : String), (mkfifo_parse_mode st s).umask = 0) ∧
    effectivePerms 0o666 0o022 = 0o644 ∧
    effectivePerms 0o666 0 = 0o666 ∧
    effectivePerms 0o666 0o022 ≠ effectivePerms 0o666 0 :=
  C9_umask_only_on_m (fun _ => true) 0o022 [OptEvent.other] ["p"]
    (fun s hs => by simp at hs)

/-- Claim C10: a failed `-m` mode parse leaves the stored mode unchanged
(and sets the Failure status). -/
theorem C10_failed_parse_frame (st : St) (s : String)
    (h : setmode s = none) :
    (mkfifo_parse_mode st s).ctx_mode = st.ctx_mode ∧
    (mkfifo_parse_mode st s).ctx_status = EXIT_FAILURE := by
  rw [mkfifo_parse_mode_eq, h]
  exact ⟨rfl, rfl⟩

/-- Claim C10, witness: parsing the malformed mode string "abc" keeps the
stored mode and sets the status to Failure. -/
theorem C10_witness :
    (mkfifo_parse_mode (initSt 0o022) "abc").ctx_mode =
      (initSt 0o022).ctx_mode ∧
    (mkfifo_parse_mode (initSt 0o022) "abc").ctx_status = EXIT_FAILURE :=
  C10_failed_parse_frame (initSt 0o022) "abc" rfl

end Mkfifo
